import Mathlib

/-!
Shallow embedding of the rail_resonance_transmitter telemetry pipeline.

Each definition mirrors one function of the Python source:
* `bufferPush`, `bufferFill`, `get_latest_readings` — `src/sensor.py`
  (`deque(maxlen=buffer_size)` semantics of `Sensor._buffer`,
  `Sensor._loop`'s `self._buffer.append(reading)`, and
  `Sensor.get_latest_readings`).
* `validateFrame`, `process_batch`, the statistical helpers and
  `format_csv` — `src/processor.py`.
* `send_ack` — `src/communication.py`.
* `publish`, `lteStart` — `src/transmitter.py` (`LTETransmitter`).

Machine floats are modelled by exact rationals; square roots are taken in
`ℝ` inside theorem statements (never inside an executable definition).
-/

/-- One timestamped 3-axis acceleration sample (`SensorReading` in
`src/sensor.py`). -/
structure SensorReading where
  timestamp : ℚ
  x : ℚ
  y : ℚ
  z : ℚ
deriving DecidableEq, Repr

/-- Appending one element to a Python `deque(maxlen=cap)`: the element is
appended on the right and elements are discarded from the left until the
length is at most `cap` (for `cap = 0` the deque stays empty).  This is the
semantics of `self._buffer.append(reading)` in `Sensor._loop`
(`src/sensor.py` lines 59-71). -/
def bufferPush (cap : ℕ) (buf : List SensorReading) (r : SensorReading) : List SensorReading :=
  (buf ++ [r]).drop (buf.length + 1 - cap)

/-- The buffer obtained by pushing the readings `rs` in order into an
initially empty `deque(maxlen=cap)` (`Sensor.__init__`, `src/sensor.py`
lines 30-37 creates the empty bounded deque). -/
def bufferFill (cap : ℕ) (rs : List SensorReading) : List SensorReading :=
  rs.foldl (bufferPush cap) []

/-- `Sensor.get_latest_readings(count)` (`src/sensor.py` lines 73-83):
returns `[]` for an empty buffer, otherwise `list(buffer)[-count:]`.
Python slicing with a negative start: for `count ≥ 1` this is the last
`min(count, length)` elements; for `count = 0` the slice `[-0:]` is `[0:]`,
the whole list. -/
def get_latest_readings (buffer : List SensorReading) (count : ℕ) : List SensorReading :=
  if buffer.isEmpty then []
  else if count = 0 then buffer
  else buffer.drop (buffer.length - count)

/-- A sensor-reading dict as passed to `process_batch`: an association
list from column name to cell value; `none` models a missing or
non-numeric (NaN after coercion) cell. -/
abbrev Row := List (String × Option ℚ)

/-- The exceptions `process_batch` (`src/processor.py`) can raise:
`keyError c` is the uncaught `KeyError` raised by the column access
`df[c]` in the numeric-coercion loop; `missingColumns` is
`ValueError("Missing columns: ...")` from `_validate` (the spec's
`SchemaError`); `insufficientData` is
`ValueError("Insufficient data for processing")` (the spec's
`InsufficientDataError`). -/
inductive ProcError where
  | keyError (col : String)
  | missingColumns (cols : List String)
  | insufficientData
deriving DecidableEq, Repr

/-- `REQUIRED_COLUMNS` in `src/processor.py` line 12. -/
def REQUIRED_COLUMNS : List String := ["timestamp", "x", "y", "z"]

/-- `MIN_SAMPLES_REQUIRED` in `src/processor.py` line 13. -/
def MIN_SAMPLES_REQUIRED : ℕ := 5

/-- `EPS = 1e-12` in `src/processor.py` line 14, as an exact rational. -/
def EPSQ : ℚ := 1 / 10 ^ 12

/-- The column renaming `df.rename(columns={"x_axis": "x", "y_axis": "y",
"z_axis": "z"})` in `process_batch` (`src/processor.py` line 75). -/
def renameKey (k : String) : String :=
  if k = "x_axis" then "x"
  else if k = "y_axis" then "y"
  else if k = "z_axis" then "z"
  else k

/-- Apply the column renaming to every key of every row dict. -/
def renamedRows (rows : List Row) : List Row :=
  rows.map (fun row => row.map (fun p => (renameKey p.1, p.2)))

/-- Accumulate a column name, keeping first-appearance order without
duplicates (how `pd.DataFrame(list_of_dicts)` collects its columns). -/
def insertNewCol (acc : List String) (c : String) : List String :=
  if c ∈ acc then acc else acc ++ [c]

/-- The column names of the DataFrame built from the row dicts: union of
the row keys in order of first appearance. -/
def colNames (rows : List Row) : List String :=
  rows.foldl (fun acc row => (row.map Prod.fst).foldl insertNewCol acc) []

/-- Cell of a row dict at column `c` (`none` when the key is absent, which
pandas fills with NaN, or when the stored value is non-numeric). -/
def getCell (row : Row) (c : String) : Option ℚ :=
  match row.find? (fun p => p.1 == c) with
  | some p => p.2
  | none => none

/-- The raw column `df[c]` as a list of cells, one per row. -/
def rawColumn (rows : List Row) (c : String) : List (Option ℚ) :=
  rows.map (fun row => getCell row c)

/-- The coerced column after
`pd.to_numeric(df[c], errors="coerce").fillna(0)`
(`src/processor.py` line 78): every missing or non-numeric cell becomes
`0`. -/
def coercedColumn (rows : List Row) (c : String) : List ℚ :=
  (rawColumn rows c).map (fun cell => cell.getD 0)

/-- `_validate` (`src/processor.py` lines 17-22): first reject when any of
`REQUIRED_COLUMNS` is missing from the frame, then reject when fewer than
`MIN_SAMPLES_REQUIRED` rows are present. -/
def validateFrame (names : List String) (n : ℕ) : Except ProcError Unit :=
  let missing := REQUIRED_COLUMNS.filter (fun c => ! names.contains c)
  if missing ≠ [] then Except.error (ProcError.missingColumns missing)
  else if n < MIN_SAMPLES_REQUIRED then Except.error ProcError.insufficientData
  else Except.ok ()

/-- Keys of the statistical features, in the insertion order produced by
`_compute_statistical` (`src/processor.py` lines 25-40). -/
def statFeatureKeys : List String :=
  (["X", "Y", "Z"].map (fun p =>
    ["mean_" ++ p, "std_" ++ p, "min_" ++ p, "max_" ++ p,
     "rms_" ++ p, "p2p_" ++ p, "crest_" ++ p])).flatten ++ ["sample_count"]

/-- Keys of the frequency features for a batch of `n` rows, in the
insertion order produced by `_compute_frequency` (`src/processor.py`
lines 43-67); axes with fewer than 2 samples are skipped, and for `n ≥ 2`
the half-spectrum is never empty. -/
def freqFeatureKeys (n : ℕ) : List String :=
  if n < 2 then []
  else
    (["X", "Y", "Z"].map (fun p =>
      ["fft_" ++ p ++ "_max", "freq_" ++ p ++ "_dominant", "freq_" ++ p ++ "_mean",
       "energy_" ++ p ++ "_0_10Hz", "energy_" ++ p ++ "_10_50Hz",
       "energy_" ++ p ++ "_50_100Hz"])).flatten

/-- Keys of the full feature dict returned by a successful
`process_batch` on `n` rows: statistical keys, then frequency keys, then
the three timestamp keys (`src/processor.py` lines 80-86). -/
def featureKeys (n : ℕ) : List String :=
  statFeatureKeys ++ freqFeatureKeys n ++ ["timestamp_start", "timestamp_end", "duration"]

/-- `process_batch` (`src/processor.py` lines 70-86), modelled up to the
shape of its result: an empty `readings` list returns the empty dict `{}`
at once (line 71-72); then the frame is built and renamed; the
numeric-coercion loop `for c in ["x","y","z"]: df[c] = ...` raises a
`KeyError` at the first absent axis column; then `_validate` runs; on
success the feature dict with keys `featureKeys rows.length` is produced.
The success value records the emitted keys (the numerical values are
modelled by the dedicated statistical definitions below). -/
def process_batch (rows : List Row) : Except ProcError (List String) :=
  if rows = [] then Except.ok []
  else
    let names := colNames (renamedRows rows)
    match ["x", "y", "z"].find? (fun c => ! names.contains c) with
    | some c => Except.error (ProcError.keyError c)
    | none =>
      match validateFrame names rows.length with
      | Except.error e => Except.error e
      | Except.ok _ => Except.ok (featureKeys rows.length)

/-- `series.mean()` over an exact-rational column. -/
def meanQ (xs : List ℚ) : ℚ := xs.sum / xs.length

/-- `series.std()` squared: the pandas sample variance with `ddof = 1`,
`Σ (x - mean)² / (n - 1)`; the std itself is its nonnegative square
root. -/
def sampleVarQ (xs : List ℚ) : ℚ :=
  ((xs.map (fun x => (x - meanQ xs) ^ 2)).sum) / ((xs.length : ℚ) - 1)

/-- `np.mean(arr * arr)`: the mean of squares of a column. -/
def meanSqQ (xs : List ℚ) : ℚ := ((xs.map (fun x => x ^ 2)).sum) / xs.length

/-- The argument of the square root in
`rms = float(np.sqrt(np.mean(arr * arr) + EPS))`
(`src/processor.py` line 35); the rms itself is
`Real.sqrt (rmsSqQ xs)`. -/
def rmsSqQ (xs : List ℚ) : ℚ := meanSqQ xs + EPSQ

/-- `series.max()` of a nonempty column (0 as a dummy for empty input,
which `process_batch` never feeds it). -/
def seriesMaxQ (xs : List ℚ) : ℚ :=
  match xs with
  | [] => 0
  | h :: t => t.foldl max h

/-- `series.min()` of a nonempty column. -/
def seriesMinQ (xs : List ℚ) : ℚ :=
  match xs with
  | [] => 0
  | h :: t => t.foldl min h

/-- `max(abs(series.max()), abs(series.min()))`, the numerator of the
crest factor (`src/processor.py` line 38). -/
def maxAbsQ (xs : List ℚ) : ℚ := max |seriesMaxQ xs| |seriesMinQ xs|

/-- Strings are modelled as lists of characters for the CSV wire-payload
serialization (`format_csv` in `src/processor.py` lines 89-95). -/
abbrev Str := List Char

/-- Lexicographic order on strings by code point, the order used by
Python `sorted(features.keys())`. -/
def lexLe : Str → Str → Bool
  | [], _ => true
  | _ :: _, [] => false
  | a :: s, b :: t => if a < b then true else if a = b then lexLe s t else false

/-- The proposition form of `lexLe`. -/
def LexLe (s t : Str) : Prop := lexLe s t = true

instance : DecidableRel LexLe := fun s t => by
  unfold LexLe; infer_instance

/-- `sep.join(parts)`: interleave the separator between the parts. -/
def joinSep (sep : Char) : List Str → Str
  | [] => []
  | [s] => s
  | s :: s2 :: rest => s ++ sep :: joinSep sep (s2 :: rest)

/-- `text.split(sep)`: split a string at every occurrence of the
separator; always returns at least one part. -/
def splitSep (sep : Char) : Str → List Str
  | [] => [[]]
  | c :: cs =>
    match splitSep sep cs with
    | [] => [[c]]
    | s :: rest => if c = sep then [] :: s :: rest else (c :: s) :: rest

/-- Dict lookup `features[k]` on an association list (the keys of a
Python dict are distinct, so the first match is the value). -/
def lookupVal (features : List (Str × Str)) (k : Str) : Str :=
  match features.find? (fun p => p.1 == k) with
  | some p => p.2
  | none => []

/-- `sorted(features.keys())` (`src/processor.py` line 92). -/
def sortedKeys (features : List (Str × Str)) : List Str :=
  List.insertionSort LexLe (features.map Prod.fst)

/-- `format_csv` (`src/processor.py` lines 89-95): empty dict gives the
empty string; otherwise the comma-joined sorted keys, a newline, and the
comma-joined values in the same sorted key order.  Values are modelled as
their already-rendered decimal strings (`str(features[k])`). -/
def format_csv (features : List (Str × Str)) : Str :=
  if features.isEmpty then []
  else
    let keys := sortedKeys features
    joinSep ',' keys ++ '\n' :: joinSep ',' (keys.map (fun k => lookupVal features k))

/-- Parsing the wire payload back, following the payload format of the
spec: split into header and row at the newline, split both at commas and
zip keys with values.  Anything that is not exactly two lines parses to
the empty mapping. -/
def parseCSV (payload : Str) : List (Str × Str) :=
  match splitSep '\n' payload with
  | [h, r] => (splitSep ',' h).zip (splitSep ',' r)
  | _ => []

/-- Outcome of one serial handshake attempt in `send_ack`
(`src/communication.py`): `failed` models any transport exception (open,
write or read error / timeout), `resp bs` models a successful read whose
incoming bytes are `bs`. -/
inductive SerialOutcome where
  | failed
  | resp (bs : List ℕ)

/-- ASCII whitespace as stripped by Python `bytes.strip()`. -/
def byteIsWS (b : ℕ) : Bool :=
  b = 9 || b = 10 || b = 11 || b = 12 || b = 13 || b = 32

/-- Python `bytes.upper()` on one byte: map `a-z` to `A-Z`. -/
def byteUpper (b : ℕ) : ℕ := if 97 ≤ b && b ≤ 122 then b - 32 else b

/-- Python `bytes.strip()`: drop ASCII whitespace from both ends. -/
def stripBytes (bs : List ℕ) : List ℕ :=
  ((bs.dropWhile byteIsWS).reverse.dropWhile byteIsWS).reverse

/-- `resp = ser.read(4)` followed by `resp.strip().upper()`
(`src/communication.py` lines 22-23). -/
def normResp (bs : List ℕ) : List ℕ := (stripBytes (bs.take 4)).map byteUpper

/-- The accepted responses `(b"ACK", b"OK")` of `send_ack`. -/
def ACK_BYTES : List ℕ := [65, 67, 75]

/-- ASCII bytes of `b"OK"`. -/
def OK_BYTES : List ℕ := [79, 75]

/-- The membership test `resp in (b"ACK", b"OK")`. -/
def ackAccepted (bs : List ℕ) : Bool :=
  normResp bs == ACK_BYTES || normResp bs == OK_BYTES

/-- Whether attempt number `i` (0-based) of the given channel behaviour
succeeds: its read completes and the normalized response is accepted. -/
def attemptSucceeds (ch : ℕ → SerialOutcome) (i : ℕ) : Bool :=
  match ch i with
  | SerialOutcome.failed => false
  | SerialOutcome.resp bs => ackAccepted bs

/-- The retry loop of `send_ack` starting at attempt index `i` with `rem`
attempts remaining; returns the result together with the number of
transport attempts performed.  A failed or rejected attempt logs / sleeps
and continues; an accepted response returns `True` immediately. -/
def sendAckFrom (ch : ℕ → SerialOutcome) : ℕ → ℕ → Bool × ℕ
  | _, 0 => (false, 0)
  | i, rem + 1 =>
    if attemptSucceeds ch i then (true, 1)
    else
      let r := sendAckFrom ch (i + 1) rem
      (r.1, r.2 + 1)

/-- `send_ack` (`src/communication.py` lines 12-29) with the configured
retry attempt count as a parameter (`COMMUNICATION["serial"]["retry_attempts"]`,
3 in `config.py`): up to `attempts` serial exchanges, returning `true` at
the first accepted response and `false` once all attempts are
exhausted. -/
def send_ack (ch : ℕ → SerialOutcome) (attempts : ℕ) : Bool × ℕ :=
  sendAckFrom ch 0 attempts

/-- State of `LTETransmitter` (`src/transmitter.py`) relevant to
`publish`: the `_connected` flag, the offline `Queue` contents
(oldest-first) and its `maxsize`. -/
structure TransmitterState where
  connected : Bool
  buffer : List String
  maxBufferSize : ℕ
deriving DecidableEq, Repr

/-- Python `Queue.full()`: true only when `maxsize > 0` and the current
size has reached it (a `maxsize` of 0 means unbounded). -/
def queueFull (s : TransmitterState) : Bool :=
  decide (0 < s.maxBufferSize) && decide (s.maxBufferSize ≤ s.buffer.length)

/-- `LTETransmitter.publish` (`src/transmitter.py` lines 85-99).
`sendOk` is the outcome `_publish_now` would report for the immediate
MQTT send (only consulted when connected).  When connected and the send
succeeds the state is unchanged and `true` is returned; otherwise the
payload is enqueued, evicting the oldest queued payload first when the
queue is full, and `false` is returned. -/
def publish (s : TransmitterState) (payload : String) (sendOk : Bool) :
    Bool × TransmitterState :=
  if s.connected && sendOk then (true, s)
  else
    let buf := if queueFull s then s.buffer.drop 1 else s.buffer
    (false, { s with buffer := buf ++ [payload] })

/-- Observable effects of `LTETransmitter.start` (`src/transmitter.py`
lines 42-51): the stop flag, how many drain-loop threads have been
created and started, and how many async connect requests were issued. -/
structure LTERun where
  stopFlag : Bool
  drainThreads : ℕ
  connectRequests : ℕ
deriving DecidableEq, Repr

/-- `LTETransmitter.start`: unconditionally issues a new
`connect_async`, clears the stop flag and creates and starts a fresh
drain-loop thread — there is no guard against being called twice. -/
def lteStart (s : LTERun) : LTERun :=
  { stopFlag := false,
    drainThreads := s.drainThreads + 1,
    connectRequests := s.connectRequests + 1 }

/-- The constant test batch of the spec: 10 identical readings with
`x = 1, y = 0, z = 0`. -/
def constBatch10 : List Row :=
  List.replicate 10 [("timestamp", some 0), ("x", some 1), ("y", some 0), ("z", some 0)]

/-- The coerced `x` column that `_compute_statistical` works on for the
constant test batch. -/
def xcol10 : List ℚ := coercedColumn (renamedRows constBatch10) "x"

/-! ## Lemmas about the sample buffer -/

theorem bufferFill_append (cap : ℕ) (rs : List SensorReading) (r : SensorReading) :
    bufferFill cap (rs ++ [r]) = bufferPush cap (bufferFill cap rs) r := by
  simp [bufferFill, List.foldl_append]

theorem bufferFill_eq_drop (cap : ℕ) (rs : List SensorReading) :
    bufferFill cap rs = rs.drop (rs.length - cap) := by
  induction rs using List.reverseRecOn with
  | nil => simp [bufferFill]
  | append_singleton l a ih =>
    rw [bufferFill_append, ih]
    simp only [bufferPush, List.drop_append_eq_append_drop, List.drop_drop,
      List.length_drop, List.length_append, List.length_cons, List.length_nil]
    congr 1
    · congr 1
      omega
    · congr 1
      omega

/-- C1: for every capacity and every sequence of pushes into an initially
empty buffer, the length never exceeds the capacity; the buffer always
holds exactly the most recent `capacity` readings in insertion order
(after `capacity + k` pushes, the last `capacity` ones); and a push into
a full buffer evicts exactly the single oldest element. -/
theorem sampleBuffer_invariant (cap : ℕ) (rs : List SensorReading) :
    (bufferFill cap rs).length ≤ cap ∧
    bufferFill cap rs = rs.drop (rs.length - cap) ∧
    (∀ k : ℕ, rs.length = cap + k → bufferFill cap rs = rs.drop k) ∧
    (∀ (buf : List SensorReading) (r : SensorReading),
      buf.length = cap → 0 < cap → bufferPush cap buf r = buf.drop 1 ++ [r]) := by
  refine ⟨?_, bufferFill_eq_drop cap rs, ?_, ?_⟩
  · rw [bufferFill_eq_drop, List.length_drop]
    omega
  · intro k hk
    rw [bufferFill_eq_drop, hk]
    congr 1
    omega
  · intro buf r hlen hcap
    simp only [bufferPush, hlen]
    have h1 : cap + 1 - cap = 1 := by omega
    rw [h1, List.drop_append_of_le_length (by omega : 1 ≤ buf.length)]

theorem sampleBuffer_invariant_witness :
    bufferFill 2 [⟨1, 0, 0, 0⟩, ⟨2, 0, 0, 0⟩, ⟨3, 0, 0, 0⟩] =
      List.drop 1 [⟨1, 0, 0, 0⟩, ⟨2, 0, 0, 0⟩, ⟨3, 0, 0, 0⟩] ∧
    bufferPush 2 [⟨1, 0, 0, 0⟩, ⟨2, 0, 0, 0⟩] ⟨3, 0, 0, 0⟩ =
      List.drop 1 [⟨1, 0, 0, 0⟩, ⟨2, 0, 0, 0⟩] ++ [⟨3, 0, 0, 0⟩] :=
  ⟨(sampleBuffer_invariant 2 _).2.2.1 1 rfl,
   (sampleBuffer_invariant 2 []).2.2.2 _ _ rfl (by decide)⟩

/-- C6 counterexample: `get_latest_readings` with `count = 0` on a
nonempty buffer returns the whole buffer (Python slice `[-0:]`), so it
does not return at most `count` readings. -/
theorem snapshot_count_zero_counterexample :
    get_latest_readings [⟨1, 2, 3, 4⟩] 0 = [⟨1, 2, 3, 4⟩] ∧
    ¬ (get_latest_readings [⟨1, 2, 3, 4⟩] 0).length ≤ 0 := by decide

/-- C6 amended: for every buffer and every `count ≥ 1`, the snapshot is
the suffix of the most recent `min count length` readings in
oldest-to-newest order, nothing removed or duplicated, and the whole
buffer when `count` is at least the length.  (For `count = 0` the code
returns the whole buffer instead, see the counterexample.) -/
theorem snapshot_spec (buffer : List SensorReading) (count : ℕ) (hc : 1 ≤ count) :
    get_latest_readings buffer count = buffer.drop (buffer.length - count) ∧
    (get_latest_readings buffer count).length = min count buffer.length ∧
    (get_latest_readings buffer count).IsSuffix buffer ∧
    (buffer.length ≤ count → get_latest_readings buffer count = buffer) := by
  have hne : count ≠ 0 := by omega
  have hmain : get_latest_readings buffer count = buffer.drop (buffer.length - count) := by
    by_cases hb : buffer.isEmpty
    · have hbe : buffer = [] := by
        cases buffer with
        | nil => rfl
        | cons h t => simp at hb
      subst hbe
      simp [get_latest_readings]
    · simp [get_latest_readings, hb, hne]
  refine ⟨hmain, ?_, ?_, ?_⟩
  · rw [hmain, List.length_drop]
    omega
  · rw [hmain]
    exact List.drop_suffix _ _
  · intro hle
    rw [hmain]
    have h0 : buffer.length - count = 0 := by omega
    rw [h0]
    rfl

theorem snapshot_spec_witness :
    get_latest_readings [⟨1, 0, 0, 0⟩, ⟨2, 0, 0, 0⟩] 5 =
      List.drop (([⟨1, 0, 0, 0⟩, ⟨2, 0, 0, 0⟩] : List SensorReading).length - 5)
        [⟨1, 0, 0, 0⟩, ⟨2, 0, 0, 0⟩] :=
  (snapshot_spec _ 5 (by decide)).1

/-! ## Lemmas about process_batch validation -/

/-- C2 counterexample: the empty batch does not fail with the
insufficient-data error; `process_batch` returns the empty feature dict
`{}` (line 71-72 of `src/processor.py`). -/
theorem process_batch_empty_counterexample :
    process_batch [] = Except.ok [] ∧
    process_batch [] ≠ Except.error ProcError.insufficientData := by
  refine ⟨rfl, fun h => ?_⟩
  rw [show process_batch [] = Except.ok [] from rfl] at h
  exact Except.noConfusion h

/-- C2 amended: every nonempty batch of fewer than 5 readings whose frame
has all required columns fails with the insufficient-data rejection and
emits no feature vector; the empty batch instead returns the empty dict
without raising. -/
theorem process_batch_insufficient (rows : List Row)
    (hne : rows ≠ [])
    (hlt : rows.length < MIN_SAMPLES_REQUIRED)
    (hcols : ∀ c ∈ REQUIRED_COLUMNS, (colNames (renamedRows rows)).contains c = true) :
    process_batch rows = Except.error ProcError.insufficientData ∧
    process_batch [] = Except.ok [] := by
  have hx : (["x", "y", "z"].find?
      (fun c => ! (colNames (renamedRows rows)).contains c)) = none := by
    rw [List.find?_eq_none]
    intro c hc
    have hcr : c ∈ REQUIRED_COLUMNS := by
      simp only [REQUIRED_COLUMNS, List.mem_cons, List.mem_singleton]
      simp only [List.mem_cons, List.mem_singleton] at hc
      tauto
    simpa using hcols c hcr
  have hm : REQUIRED_COLUMNS.filter
      (fun c => ! (colNames (renamedRows rows)).contains c) = [] := by
    rw [List.filter_eq_nil_iff]
    intro c hc
    simpa using hcols c hc
  have hval : validateFrame (colNames (renamedRows rows)) rows.length
      = Except.error ProcError.insufficientData := by
    simp only [validateFrame]
    rw [hm]
    simp [hlt]
  refine ⟨?_, rfl⟩
  simp only [process_batch, if_neg hne, hx, hval]

theorem process_batch_insufficient_witness :
    process_batch (List.replicate 3
        [("timestamp", some (0 : ℚ)), ("x", some 1), ("y", some 0), ("z", some 0)])
      = Except.error ProcError.insufficientData ∧
    process_batch [] = Except.ok [] :=
  process_batch_insufficient _ (by decide) (by decide) (by decide)

/-- C7 counterexample: a 5-row batch whose rows lack the `x` axis is
rejected by the uncaught `KeyError` of the coercion loop, not by the
missing-columns (`SchemaError`) rejection of `_validate`. -/
theorem process_batch_missing_axis_counterexample :
    process_batch (List.replicate 5
        [("timestamp", some (0 : ℚ)), ("y", some 0), ("z", some 0)])
      = Except.error (ProcError.keyError "x") ∧
    ProcError.keyError "x" ≠ ProcError.missingColumns ["x"] :=
  ⟨rfl, by decide⟩

/-- C7 amended: a nonempty batch whose frame lacks a required axis column
is rejected with no feature vector, but by the uncaught `KeyError` raised
at the column access `df[c]` of the numeric-coercion loop for the first
missing axis — the missing-columns (`SchemaError`) rejection of
`_validate` is not reached for absent axes. -/
theorem process_batch_keyError (rows : List Row) (c : String)
    (hne : rows ≠ [])
    (hfind : ["x", "y", "z"].find?
      (fun a => ! (colNames (renamedRows rows)).contains a) = some c) :
    process_batch rows = Except.error (ProcError.keyError c) := by
  simp only [process_batch, if_neg hne, hfind]

theorem process_batch_keyError_witness :
    process_batch (List.replicate 5
        [("timestamp", some (0 : ℚ)), ("x", some 1), ("z", some 0)])
      = Except.error (ProcError.keyError "y") :=
  process_batch_keyError _ "y" (by decide) (by decide)

/-! ## Statistical features on the constant batch -/

theorem xcol10_eq : xcol10 = [1, 1, 1, 1, 1, 1, 1, 1, 1, 1] := by decide

theorem meanQ_xcol10 : meanQ xcol10 = 1 := by
  rw [xcol10_eq]
  norm_num [meanQ]

theorem sampleVarQ_xcol10 : sampleVarQ xcol10 = 0 := by
  rw [xcol10_eq]
  norm_num [sampleVarQ, meanQ]

theorem rmsSqQ_xcol10 : rmsSqQ xcol10 = 1 + 1 / 10 ^ 12 := by
  rw [xcol10_eq]
  norm_num [rmsSqQ, meanSqQ, EPSQ]

theorem maxAbsQ_xcol10 : maxAbsQ xcol10 = 1 := by
  rw [xcol10_eq]
  norm_num [maxAbsQ, seriesMaxQ, seriesMinQ]

theorem rmsSqQ_xcol10_cast : ((rmsSqQ xcol10 : ℚ) : ℝ) = 1 + 1 / 10 ^ 12 := by
  rw [rmsSqQ_xcol10]
  push_cast
  norm_num

/-- C5 counterexample: on the constant batch the rms argument is exactly
`1 + 1e-12`, so the rms `sqrt(mean of squares + 1e-12)` is not exactly 1:
the claimed `rms_X = 1` fails (it only holds within tolerance). -/
theorem const_batch_rms_counterexample :
    rmsSqQ xcol10 = 1 + 1 / 10 ^ 12 ∧
    Real.sqrt ((rmsSqQ xcol10 : ℚ) : ℝ) ≠ 1 := by
  refine ⟨rmsSqQ_xcol10, ?_⟩
  simp only [ne_eq, Real.sqrt_eq_one, rmsSqQ_xcol10_cast]
  norm_num

/-- C5 amended: on the constant batch `mean_X = 1` and `std_X = 0` hold
exactly (the sample variance is 0), while `rms_X = sqrt(1 + 1e-12)` lies
strictly between `1` and `1 + 1e-12` (so it equals 1 only within
tolerance) and `crest_X = max(|max|,|min|)/rms = 1/rms` lies strictly
between `1 - 1e-12` and `1`. -/
theorem const_batch_features :
    meanQ xcol10 = 1 ∧
    sampleVarQ xcol10 = 0 ∧
    maxAbsQ xcol10 = 1 ∧
    1 < Real.sqrt ((rmsSqQ xcol10 : ℚ) : ℝ) ∧
    Real.sqrt ((rmsSqQ xcol10 : ℚ) : ℝ) < 1 + 1 / 10 ^ 12 ∧
    1 - 1 / 10 ^ 12 < ((maxAbsQ xcol10 : ℚ) : ℝ) / Real.sqrt ((rmsSqQ xcol10 : ℚ) : ℝ) ∧
    ((maxAbsQ xcol10 : ℚ) : ℝ) / Real.sqrt ((rmsSqQ xcol10 : ℚ) : ℝ) < 1 := by
  have hmcast : ((maxAbsQ xcol10 : ℚ) : ℝ) = 1 := by
    rw [maxAbsQ_xcol10]
    norm_num
  have hgt : 1 < Real.sqrt ((rmsSqQ xcol10 : ℚ) : ℝ) := by
    rw [show (1 : ℝ) = Real.sqrt 1 from (Real.sqrt_one).symm]
    apply Real.sqrt_lt_sqrt (by norm_num)
    rw [rmsSqQ_xcol10_cast]
    norm_num
  have hpos : 0 < Real.sqrt ((rmsSqQ xcol10 : ℚ) : ℝ) := by linarith
  have hlt : Real.sqrt ((rmsSqQ xcol10 : ℚ) : ℝ) < 1 + 1 / 10 ^ 12 := by
    apply (Real.sqrt_lt' (by norm_num : (0 : ℝ) < 1 + 1 / 10 ^ 12)).mpr
    rw [rmsSqQ_xcol10_cast]
    norm_num
  refine ⟨meanQ_xcol10, sampleVarQ_xcol10, maxAbsQ_xcol10, hgt, hlt, ?_, ?_⟩
  · rw [hmcast, lt_div_iff₀ hpos]
    nlinarith
  · rw [hmcast, div_lt_one hpos]
    exact hgt

/-- C10: for every input column the rms argument
`mean of squares + 1e-12` is strictly positive, hence the rms
`sqrt(mean of squares + 1e-12)` is strictly positive, the crest-factor
division is well-defined and the `rms == 0` fallback branch returning
`0.0` is unreachable. -/
theorem rms_always_positive (xs : List ℚ) :
    0 < rmsSqQ xs ∧ 0 < Real.sqrt ((rmsSqQ xs : ℚ) : ℝ) := by
  have hms : 0 ≤ meanSqQ xs := by
    unfold meanSqQ
    apply div_nonneg
    · apply List.sum_nonneg
      intro a ha
      simp only [List.mem_map] at ha
      obtain ⟨b, _, rfl⟩ := ha
      positivity
    · exact_mod_cast Nat.zero_le _
  have heps : (0 : ℚ) < EPSQ := by norm_num [EPSQ]
  have h : 0 < rmsSqQ xs := by
    unfold rmsSqQ
    linarith
  refine ⟨h, ?_⟩
  rw [Real.sqrt_pos]
  exact_mod_cast h

/-! ## Lemmas about the serial handshake -/

theorem sendAckFrom_count_le (ch : ℕ → SerialOutcome) :
    ∀ (rem i : ℕ), (sendAckFrom ch i rem).2 ≤ rem := by
  intro rem
  induction rem with
  | zero => intro i; simp [sendAckFrom]
  | succ n ih =>
    intro i
    simp only [sendAckFrom]
    split
    · simp
    · have := ih (i + 1)
      simp
      omega

theorem sendAckFrom_all_fail (ch : ℕ → SerialOutcome) :
    ∀ (rem i : ℕ), (∀ j, j < rem → attemptSucceeds ch (i + j) = false) →
      sendAckFrom ch i rem = (false, rem) := by
  intro rem
  induction rem with
  | zero => intro i _; rfl
  | succ n ih =>
    intro i h
    have h0 : attemptSucceeds ch i = false := by simpa using h 0 (by omega)
    have hrest : ∀ j, j < n → attemptSucceeds ch (i + 1 + j) = false := by
      intro j hj
      have := h (j + 1) (by omega)
      rwa [show i + (j + 1) = i + 1 + j from by omega] at this
    simp only [sendAckFrom, h0, Bool.false_eq_true, if_false, ih (i + 1) hrest]

theorem sendAckFrom_first_success (ch : ℕ → SerialOutcome) :
    ∀ (rem i k : ℕ), k < rem →
      (∀ j, j < k → attemptSucceeds ch (i + j) = false) →
      attemptSucceeds ch (i + k) = true →
      sendAckFrom ch i rem = (true, k + 1) := by
  intro rem
  induction rem with
  | zero => intro i k hk; omega
  | succ n ih =>
    intro i k hk hfail hsucc
    cases k with
    | zero =>
      have h0 : attemptSucceeds ch i = true := by simpa using hsucc
      simp [sendAckFrom, h0]
    | succ m =>
      have h0 : attemptSucceeds ch i = false := by simpa using hfail 0 (by omega)
      have hrest : ∀ j, j < m → attemptSucceeds ch (i + 1 + j) = false := by
        intro j hj
        have := hfail (j + 1) (by omega)
        rwa [show i + (j + 1) = i + 1 + j from by omega] at this
      have hs : attemptSucceeds ch (i + 1 + m) = true := by
        rwa [show i + (m + 1) = i + 1 + m from by omega] at hsucc
      simp only [sendAckFrom, h0, Bool.false_eq_true, if_false,
        ih (i + 1) m (by omega) hrest hs]

/-- C4: for every channel behaviour and every attempt budget `n ≥ 1`,
the handshake performs at most `n` transport attempts; it returns `true`
with exactly `k+1` attempts when attempt `k` is the first whose stripped,
upper-cased response is `ACK` or `OK`; it returns `false` after exactly
`n` attempts when no attempt succeeds; and with 3 attempts against a
transport that always fails it performs exactly 3 attempts and returns
`false`. -/
theorem handshake_probe_spec (ch : ℕ → SerialOutcome) (n : ℕ) (_hn : 1 ≤ n) :
    (send_ack ch n).2 ≤ n ∧
    (∀ k, k < n → (∀ j, j < k → attemptSucceeds ch j = false) →
      attemptSucceeds ch k = true → send_ack ch n = (true, k + 1)) ∧
    ((∀ j, j < n → attemptSucceeds ch j = false) → send_ack ch n = (false, n)) ∧
    send_ack (fun _ => SerialOutcome.failed) 3 = (false, 3) := by
  refine ⟨sendAckFrom_count_le ch n 0, ?_, ?_, rfl⟩
  · intro k hk hfail hsucc
    exact sendAckFrom_first_success ch n 0 k hk
      (fun j hj => by simpa using hfail j hj) (by simpa using hsucc)
  · intro h
    exact sendAckFrom_all_fail ch n 0 (fun j hj => by simpa using h j hj)

theorem handshake_probe_spec_witness :
    send_ack (fun _ => SerialOutcome.resp [65, 67, 75]) 3 = (true, 1) :=
  (handshake_probe_spec _ 3 (by norm_num)).2.1 0 (by norm_num)
    (fun j hj => absurd hj (Nat.not_lt_zero j)) (by decide)

/-! ## The resilient publisher -/

/-- C3: `publish` returns `true` exactly when connected and the
immediate send succeeds (leaving the queue untouched); when not
connected it returns `false` and appends the payload to the offline
queue: the size grows by one when the queue is not full, and when the
queue is full exactly the oldest payload is evicted first, keeping the
size constant (at the capacity `M` when the queue held `M` items). -/
theorem publish_offline_spec (s : TransmitterState) (p : String) (sendOk : Bool) :
    ((publish s p sendOk).1 = true ↔ (s.connected = true ∧ sendOk = true)) ∧
    ((publish s p sendOk).1 = true → (publish s p sendOk).2 = s) ∧
    (s.connected = false →
      (publish s p sendOk).1 = false ∧
      (queueFull s = false →
        (publish s p sendOk).2.buffer = s.buffer ++ [p] ∧
        (publish s p sendOk).2.buffer.length = s.buffer.length + 1) ∧
      (queueFull s = true →
        (publish s p sendOk).2.buffer = s.buffer.drop 1 ++ [p] ∧
        (publish s p sendOk).2.buffer.length = s.buffer.length ∧
        (s.buffer.length = s.maxBufferSize →
          (publish s p sendOk).2.buffer.length = s.maxBufferSize))) := by
  by_cases hc : (s.connected && sendOk) = true
  · have hr : publish s p sendOk = (true, s) := by
      unfold publish
      rw [if_pos hc]
    rw [Bool.and_eq_true] at hc
    refine ⟨?_, ?_, ?_⟩
    · rw [hr]
      simp [hc.1, hc.2]
    · intro _
      rw [hr]
    · intro hconn
      rw [hconn] at hc
      simp at hc
  · have hr : publish s p sendOk =
        (false, { s with
          buffer := (if queueFull s then s.buffer.drop 1 else s.buffer) ++ [p] }) := by
      unfold publish
      rw [if_neg hc]
    refine ⟨?_, ?_, ?_⟩
    · constructor
      · intro h
        rw [hr] at h
        exact absurd h (by simp)
      · intro hh
        exact absurd hh (by simpa [Bool.and_eq_true] using hc)
    · intro h
      rw [hr] at h
      exact absurd h (by simp)
    · intro _
      refine ⟨by rw [hr], ?_, ?_⟩
      · intro hqf
        rw [hr]
        rw [if_neg (by simp [hqf])]
        exact ⟨rfl, by simp⟩
      · intro hqf
        rw [hr]
        rw [if_pos hqf]
        have hfull : 0 < s.maxBufferSize ∧ s.maxBufferSize ≤ s.buffer.length := by
          simpa [queueFull] using hqf
        refine ⟨rfl, ?_, ?_⟩
        · simp only [List.length_append, List.length_drop, List.length_cons,
            List.length_nil]
          omega
        · intro hlen
          simp only [List.length_append, List.length_drop, List.length_cons,
            List.length_nil]
          omega

theorem publish_offline_spec_witness :
    (publish ⟨false, ["a"], 2⟩ "b" false).2.buffer = ["a"] ++ ["b"] ∧
    (publish ⟨false, ["a"], 2⟩ "b" false).2.buffer.length =
      (["a"] : List String).length + 1 :=
  ((publish_offline_spec ⟨false, ["a"], 2⟩ "b" false).2.2 rfl).2.1 (by decide)

/-- C9 counterexample: a second `start()` is not guarded: it changes the
state again (a second drain-loop thread is created and started), so the
second call is not effect-free. -/
theorem start_not_idempotent_counterexample :
    lteStart (lteStart ⟨false, 0, 0⟩) ≠ lteStart ⟨false, 0, 0⟩ ∧
    (lteStart (lteStart ⟨false, 0, 0⟩)).drainThreads = 2 := by decide

/-- C9 amended: `start()` has no double-start guard: every call,
including a repeated one, clears the stop flag, issues another async
connect request and launches one more drain-loop thread. -/
theorem start_launches_new_drain_loop (s : LTERun) :
    (lteStart s).drainThreads = s.drainThreads + 1 ∧
    (lteStart s).connectRequests = s.connectRequests + 1 ∧
    (lteStart s).stopFlag = false :=
  ⟨rfl, rfl, rfl⟩

/-! ## Lemmas about the CSV wire payload -/

theorem lexLe_total : ∀ s t : Str, lexLe s t = true ∨ lexLe t s = true := by
  intro s
  induction s with
  | nil => intro t; left; rfl
  | cons a s ih =>
    intro t
    cases t with
    | nil => right; rfl
    | cons b t =>
      rcases lt_trichotomy a b with h | h | h
      · left
        simp [lexLe, h]
      · subst h
        rcases ih t with h | h
        · left
          simp [lexLe, h]
        · right
          simp [lexLe, h]
      · right
        simp [lexLe, h]

theorem lexLe_trans : ∀ s t u : Str,
    lexLe s t = true → lexLe t u = true → lexLe s u = true := by
  intro s
  induction s with
  | nil => intro t u _ _; rfl
  | cons a s ih =>
    intro t u hst htu
    cases t with
    | nil => simp [lexLe] at hst
    | cons b t =>
      cases u with
      | nil => simp [lexLe] at htu
      | cons c u =>
        rcases lt_trichotomy a b with hab | hab | hab
        · rcases lt_trichotomy b c with hbc | hbc | hbc
          · simp [lexLe, lt_trans hab hbc]
          · subst hbc
            simp [lexLe, hab]
          · simp [lexLe, lt_asymm hbc, hbc.ne'] at htu
        · subst hab
          simp [lexLe] at hst
          rcases lt_trichotomy a c with hac | hac | hac
          · simp [lexLe, hac]
          · subst hac
            simp [lexLe] at htu
            simp [lexLe, ih t u hst htu]
          · simp [lexLe, lt_asymm hac, hac.ne'] at htu
        · simp [lexLe, lt_asymm hab, hab.ne'] at hst

theorem splitSep_ne_nil (sep : Char) : ∀ s : Str, splitSep sep s ≠ [] := by
  intro s
  induction s with
  | nil => simp [splitSep]
  | cons c cs ih =>
    simp only [splitSep]
    split
    · simp
    · split
      · simp
      · simp

theorem splitSep_no_sep (sep : Char) : ∀ s : Str, sep ∉ s → splitSep sep s = [s] := by
  intro s
  induction s with
  | nil => intro _; rfl
  | cons c cs ih =>
    intro h
    simp only [List.mem_cons, not_or] at h
    simp only [splitSep, ih h.2]
    rw [if_neg (fun he => h.1 he.symm)]

theorem splitSep_append (sep : Char) : ∀ s t : Str, sep ∉ s →
    splitSep sep (s ++ sep :: t) = s :: splitSep sep t := by
  intro s
  induction s with
  | nil =>
    intro t _
    simp only [List.nil_append, splitSep]
    cases h : splitSep sep t with
    | nil => exact absurd h (splitSep_ne_nil sep t)
    | cons a l => simp
  | cons c cs ih =>
    intro t h
    simp only [List.mem_cons, not_or] at h
    have hrec := ih t h.2
    rw [List.cons_append]
    rw [show splitSep sep (c :: (cs ++ sep :: t)) =
        (match splitSep sep (cs ++ sep :: t) with
         | [] => [[c]]
         | s :: rest => if c = sep then [] :: s :: rest else (c :: s) :: rest) from rfl]
    rw [hrec]
    show (if c = sep then [] :: cs :: splitSep sep t
      else (c :: cs) :: splitSep sep t) = (c :: cs) :: splitSep sep t
    rw [if_neg (fun he => h.1 he.symm)]

theorem splitSep_joinSep (sep : Char) : ∀ ss : List Str, ss ≠ [] →
    (∀ s ∈ ss, sep ∉ s) → splitSep sep (joinSep sep ss) = ss := by
  intro ss
  induction ss with
  | nil => intro h _; exact absurd rfl h
  | cons s rest ih =>
    intro _ hmem
    cases rest with
    | nil =>
      simp only [joinSep]
      exact splitSep_no_sep sep s (hmem s (by simp))
    | cons s2 rest2 =>
      simp only [joinSep]
      rw [splitSep_append sep s _ (hmem s (by simp)),
        ih (by simp) (fun a ha => hmem a (List.mem_cons_of_mem s ha))]

theorem mem_joinSep (sep : Char) : ∀ (ss : List Str) (c : Char),
    c ∈ joinSep sep ss → c = sep ∨ ∃ s ∈ ss, c ∈ s := by
  intro ss
  induction ss with
  | nil =>
    intro c hc
    simp [joinSep] at hc
  | cons s rest ih =>
    intro c hc
    cases rest with
    | nil =>
      simp only [joinSep] at hc
      right
      exact ⟨s, by simp, hc⟩
    | cons s2 rest2 =>
      simp only [joinSep, List.mem_append, List.mem_cons] at hc
      rcases hc with h | h | h
      · right
        exact ⟨s, by simp, h⟩
      · left
        exact h
      · rcases ih c h with h2 | ⟨a, ha, hca⟩
        · left
          exact h2
        · right
          exact ⟨a, List.mem_cons_of_mem s ha, hca⟩

theorem zip_self_map {α β : Type} (l : List α) (f : α → β) :
    l.zip (l.map f) = l.map (fun a => (a, f a)) := by
  induction l with
  | nil => rfl
  | cons a t ih => simp [ih]

theorem mem_iff_lookupVal : ∀ (features : List (Str × Str)),
    (features.map Prod.fst).Nodup → ∀ k v : Str,
    ((k, v) ∈ features ↔ (k ∈ features.map Prod.fst ∧ lookupVal features k = v)) := by
  intro features
  induction features with
  | nil =>
    intro _ k v
    simp [lookupVal]
  | cons p rest ih =>
    intro hnd k v
    obtain ⟨pk, pv⟩ := p
    simp only [List.map_cons, List.nodup_cons] at hnd
    obtain ⟨hpk, hnd2⟩ := hnd
    by_cases hk : k = pk
    · subst hk
      have hlookh : lookupVal ((k, pv) :: rest) k = pv := by
        simp [lookupVal, List.find?]
      constructor
      · intro hmem
        rcases List.mem_cons.mp hmem with he | hm
        · injection he with e1 e2
          subst e2
          exact ⟨by simp, hlookh⟩
        · exact absurd (List.mem_map_of_mem Prod.fst hm) hpk
      · intro ⟨_, hlk⟩
        rw [hlookh] at hlk
        subst hlk
        exact List.mem_cons_self _ _
    · have hfind : lookupVal ((pk, pv) :: rest) k = lookupVal rest k := by
        have hbeq : ((pk, pv).1 == k) = false := by
          simp only [beq_eq_false_iff_ne, ne_eq]
          exact fun he => hk he.symm
        simp [lookupVal, List.find?, hbeq]
      rw [List.mem_cons, hfind, List.map_cons, List.mem_cons, ih hnd2 k v]
      constructor
      · intro hor
        rcases hor with he | ⟨hm, hl⟩
        · exact absurd (congrArg Prod.fst he) hk
        · exact ⟨Or.inr hm, hl⟩
      · intro ⟨hor, hl⟩
        rcases hor with he | hm
        · exact absurd he hk
        · exact Or.inr ⟨hm, hl⟩

/-- C8: for every nonempty feature dict (distinct keys, and no comma or
newline in any key or rendered value — as is the case for all feature
names and numeric renderings of the pipeline), `format_csv` produces
exactly two lines: the comma-joined lexicographically sorted keys, then
the comma-joined values in the same sorted key order; the sorted key list
is a permutation of the original keys; and parsing the header and row
back yields exactly the original key-value pairs. -/
theorem format_csv_roundtrip (features : List (Str × Str))
    (hne : features ≠ [])
    (hnd : (features.map Prod.fst).Nodup)
    (hchars : ∀ p ∈ features, ',' ∉ p.1 ∧ '\n' ∉ p.1 ∧ ',' ∉ p.2 ∧ '\n' ∉ p.2) :
    splitSep '\n' (format_csv features) =
      [joinSep ',' (sortedKeys features),
       joinSep ',' ((sortedKeys features).map (fun k => lookupVal features k))] ∧
    List.Sorted LexLe (sortedKeys features) ∧
    (sortedKeys features).Perm (features.map Prod.fst) ∧
    (∀ k v : Str, (k, v) ∈ parseCSV (format_csv features) ↔ (k, v) ∈ features) := by
  have hperm : (sortedKeys features).Perm (features.map Prod.fst) :=
    List.perm_insertionSort LexLe (features.map Prod.fst)
  have hkc : ∀ k ∈ sortedKeys features, ',' ∉ k ∧ '\n' ∉ k := by
    intro k hk
    obtain ⟨p, hp, hpk⟩ := List.mem_map.mp (hperm.subset hk)
    obtain h := hchars p hp
    exact hpk ▸ ⟨h.1, h.2.1⟩
  have hlook : ∀ k ∈ sortedKeys features, ∃ p ∈ features, p.1 = k ∧ lookupVal features k = p.2 := by
    intro k hk
    obtain ⟨p, hp, hpk⟩ := List.mem_map.mp (hperm.subset hk)
    refine ⟨p, hp, hpk, ?_⟩
    subst hpk
    exact ((mem_iff_lookupVal features hnd p.1 p.2).mp hp).2
  have hvc : ∀ k ∈ sortedKeys features,
      ',' ∉ lookupVal features k ∧ '\n' ∉ lookupVal features k := by
    intro k hk
    obtain ⟨p, hp, _, hlk⟩ := hlook k hk
    rw [hlk]
    exact ⟨(hchars p hp).2.2.1, (hchars p hp).2.2.2⟩
  have hkne : sortedKeys features ≠ [] := by
    intro h0
    have hl := hperm.length_eq
    rw [h0] at hl
    cases features with
    | nil => exact hne rfl
    | cons a l => simp at hl
  have hfmt : format_csv features = joinSep '\n'
      [joinSep ',' (sortedKeys features),
       joinSep ',' ((sortedKeys features).map (fun k => lookupVal features k))] := by
    unfold format_csv
    rw [if_neg (by simpa [List.isEmpty_iff] using hne)]
    rfl
  have hnonl : ∀ s ∈ [joinSep ',' (sortedKeys features),
      joinSep ',' ((sortedKeys features).map (fun k => lookupVal features k))],
      '\n' ∉ s := by
    intro s hs hmem
    rcases List.mem_cons.mp hs with rfl | hs2
    · rcases mem_joinSep ',' _ '\n' hmem with h | ⟨a, ha, hca⟩
      · exact absurd h (by decide)
      · exact (hkc a ha).2 hca
    · rcases List.mem_cons.mp hs2 with rfl | hs3
      · rcases mem_joinSep ',' _ '\n' hmem with h | ⟨a, ha, hca⟩
        · exact absurd h (by decide)
        · obtain ⟨k, hk, rfl⟩ := List.mem_map.mp ha
          exact (hvc k hk).2 hca
      · simp at hs3
  have h1 : splitSep '\n' (format_csv features) =
      [joinSep ',' (sortedKeys features),
       joinSep ',' ((sortedKeys features).map (fun k => lookupVal features k))] := by
    rw [hfmt]
    exact splitSep_joinSep '\n' _ (by simp) hnonl
  have hsortd : List.Sorted LexLe (sortedKeys features) := by
    haveI : IsTotal Str LexLe := ⟨lexLe_total⟩
    haveI : IsTrans Str LexLe := ⟨lexLe_trans⟩
    exact List.sorted_insertionSort LexLe (features.map Prod.fst)
  refine ⟨h1, hsortd, hperm, ?_⟩
  have hparse : parseCSV (format_csv features) =
      (sortedKeys features).map (fun k => (k, lookupVal features k)) := by
    have hstep : parseCSV (format_csv features) =
        (splitSep ',' (joinSep ',' (sortedKeys features))).zip
          (splitSep ',' (joinSep ','
            ((sortedKeys features).map (fun k => lookupVal features k)))) := by
      unfold parseCSV
      rw [h1]
    rw [hstep]
    rw [splitSep_joinSep ',' _ hkne (fun s hs => (hkc s hs).1)]
    rw [splitSep_joinSep ',' _ (by simpa using hkne)
      (fun s hs => by
        obtain ⟨k, hk, rfl⟩ := List.mem_map.mp hs
        exact (hvc k hk).1)]
    exact zip_self_map _ _
  intro k v
  rw [hparse]
  constructor
  · intro hm
    obtain ⟨k2, hk2, heq⟩ := List.mem_map.mp hm
    injection heq with e1 e2
    subst e1
    subst e2
    exact (mem_iff_lookupVal features hnd k2 (lookupVal features k2)).mpr
      ⟨hperm.subset hk2, rfl⟩
  · intro hm
    obtain ⟨hkm, hlv⟩ := (mem_iff_lookupVal features hnd k v).mp hm
    subst hlv
    exact List.mem_map_of_mem _ (hperm.symm.subset hkm)

theorem format_csv_roundtrip_witness :
    splitSep '\n' (format_csv [([Char.ofNat 98], [Char.ofNat 49]),
        ([Char.ofNat 97], [Char.ofNat 50])]) =
      [joinSep ',' (sortedKeys [([Char.ofNat 98], [Char.ofNat 49]),
        ([Char.ofNat 97], [Char.ofNat 50])]),
       joinSep ',' ((sortedKeys [([Char.ofNat 98], [Char.ofNat 49]),
        ([Char.ofNat 97], [Char.ofNat 50])]).map
         (fun k => lookupVal [([Char.ofNat 98], [Char.ofNat 49]),
           ([Char.ofNat 97], [Char.ofNat 50])] k))] :=
  (format_csv_roundtrip _ (by decide) (by decide) (by decide)).1
